/-
Verification of the Tutor-RAG-AI ingestion-and-retrieval pipeline.

Shallow embedding of:
  app/pdf_processor.py   (PDFProcessor: _clean_text, _chunk_text, _extract_text_from_pdf)
  app/vector_store_faiss.py (VectorStoreFAISS: add_document, search, _save_index, _load_index)
together with spec-modelled definitions for the operations of app/vector_store.py
(the VectorStore that app/main.py imports), which is not present in the source tree.

Strings are modelled as List Char.  Python's `re` substitutions are embedded as
structurally recursive character scanners; machine behaviour that matters to the
claims (numpy/faiss -1 padding, Python negative list indexing, truthiness of
strings) is modelled explicitly.
-/
import Mathlib

set_option maxRecDepth 100000

deriving instance DecidableEq for Except

namespace TutorRAG

/-! ## Definitions -/

/-! ## Python character classes (ASCII fragment of `\s` and `\d`) -/

/-- Model of Python regex `\s` restricted to the ASCII whitespace characters
space, tab, newline, carriage return, vertical tab and form feed. -/
def pySpace (c : Char) : Bool :=
  c = ' ' || c = '\t' || c = '\n' || c = '\r' || c = Char.ofNat 11 || c = Char.ofNat 12

/-- Model of Python regex `\d` restricted to ASCII digits. -/
def isPyDigit (c : Char) : Bool :=
  '0' ≤ c && c ≤ '9'

/-- Left strip: Python `str.strip` on the leading side. -/
def lstrip (s : List Char) : List Char :=
  s.dropWhile pySpace

/-- Python `str.strip`: remove leading and trailing whitespace. -/
def pstrip (s : List Char) : List Char :=
  List.rdropWhile pySpace (s.dropWhile pySpace)

/-! ## PDFProcessor._clean_text

Source (app/pdf_processor.py, lines 178-192):
```
text = re.sub(r'\s+', ' ', text)
text = re.sub(r'[^\w\s؀-ۿ ... \'\"\n]', '', text)
text = re.sub(r'^\d+\s*$', '', text, flags=re.MULTILINE)
text = re.sub(r'\n{3,}', '\n\n', text)
return text.strip()
```
-/

/-- Scanner for `re.sub(r'\s+', ' ', text)`: each maximal run of whitespace is
replaced by a single space.  The boolean records whether the scanner is inside a
whitespace run whose replacement space has already been emitted. -/
def collapseWSGo : Bool → List Char → List Char
  | _, [] => []
  | inRun, c :: cs =>
    if pySpace c then
      if inRun then collapseWSGo true cs else ' ' :: collapseWSGo true cs
    else c :: collapseWSGo false cs

/-- Model of `re.sub(r'\s+', ' ', text)`. -/
def collapseWS (s : List Char) : List Char :=
  collapseWSGo false s

/-- Character allow-list of the second substitution: ASCII word characters,
whitespace, the Urdu/Arabic Unicode ranges and the listed punctuation.  (`\w`
is modelled by its ASCII fragment plus the listed Arabic-script ranges.) -/
def allowedChar (c : Char) : Bool :=
  (('a' ≤ c && c ≤ 'z') || ('A' ≤ c && c ≤ 'Z') || ('0' ≤ c && c ≤ '9') || c = '_')
  || pySpace c
  || (Char.ofNat 0x0600 ≤ c && c ≤ Char.ofNat 0x06FF)
  || (Char.ofNat 0x0750 ≤ c && c ≤ Char.ofNat 0x077F)
  || (Char.ofNat 0x08A0 ≤ c && c ≤ Char.ofNat 0x08FF)
  || (Char.ofNat 0xFB50 ≤ c && c ≤ Char.ofNat 0xFDFF)
  || (Char.ofNat 0xFE70 ≤ c && c ≤ Char.ofNat 0xFEFF)
  || c = '.' || c = ',' || c = '!' || c = '?' || c = ':' || c = ';'
  || c = '(' || c = ')' || c = '[' || c = ']' || c = Char.ofNat 0x7b || c = Char.ofNat 0x7d
  || c = '-' || c = '+' || c = '=' || c = '*' || c = '/' || c = '\\'
  || c = '@' || c = '#' || c = '$' || c = '%' || c = '&' || c = '|'
  || c = '<' || c = '>' || c = '\'' || c = '"' || c = '\n'

/-- Test for a pure page-number line: at least one digit followed only by
whitespace, i.e. a full match of `^\d+\s*$`. -/
def isDigitLine (s : List Char) : Bool :=
  !s.isEmpty && !(s.takeWhile isPyDigit).isEmpty && (s.dropWhile isPyDigit).all pySpace

/-- Model of `re.sub(r'^\d+\s*$', '', text, flags=re.MULTILINE)` on its actual
input in `_clean_text`: the preceding whitespace collapse leaves no newline in
the text, so the MULTILINE pattern reduces to a whole-string match. -/
def removePageLine (s : List Char) : List Char :=
  if isDigitLine s then [] else s

/-- Scanner for `re.sub(r'\n{3,}', '\n\n', text)`: within a run of newlines the
first two are kept and the rest dropped.  The counter is the number of newlines
already emitted in the current run (saturating at 2). -/
def collapseNLGo : Nat → List Char → List Char
  | _, [] => []
  | k, c :: cs =>
    if c = '\n' then
      if k < 2 then '\n' :: collapseNLGo (k + 1) cs else collapseNLGo k cs
    else c :: collapseNLGo 0 cs

/-- Model of `re.sub(r'\n{3,}', '\n\n', text)`. -/
def collapseNL (s : List Char) : List Char :=
  collapseNLGo 0 s

/-- Embedding of `PDFProcessor._clean_text`. -/
def cleanText (s : List Char) : List Char :=
  pstrip (collapseNL (removePageLine ((collapseWS s).filter allowedChar)))

/-- Predicate used in the amended idempotence statement: no two adjacent
whitespace characters. -/
def noAdjSpaces : List Char → Bool
  | [] => true
  | [_] => true
  | a :: b :: t => !(pySpace a && pySpace b) && noAdjSpaces (b :: t)

/-! ## PDFProcessor._chunk_text

Source (app/pdf_processor.py, lines 194-233):
```
start = 0
chunk_count = 0
while start < text_length and chunk_count < 100:
    end = start + chunk_size
    chunk = text[start:end].strip()
    if len(chunk) > 20:
        chunks.append(chunk)
        chunk_count += 1
    start = end - overlap
    if start >= text_length:
        break
```
-/

/-- Loop of `_chunk_text`, with the loop variable `start` exposed in the
result.  The structural `fuel` argument bounds the number of iterations; when
`overlap < chunk_size` (the only configurations the repository uses, 300/50
and 500/100) the initial fuel `text.length + 1` is provably never exhausted,
since `start` advances by at least one per iteration. -/
def chunkAux (text : List Char) (W O : Nat) : Nat → Nat → Nat → List (Nat × List Char)
  | 0, _, _ => []
  | fuel + 1, start, cnt =>
    if start < text.length ∧ cnt < 100 then
      if 20 < (pstrip ((text.drop start).take W)).length then
        (start, pstrip ((text.drop start).take W)) ::
          chunkAux text W O fuel (start + (W - O)) (cnt + 1)
      else
        chunkAux text W O fuel (start + (W - O)) cnt
    else []

/-- Chunks of `_chunk_text` paired with the value of `start` at which each was
emitted. -/
def chunkTextPairs (text : List Char) (W O : Nat) : List (Nat × List Char) :=
  chunkAux text W O (text.length + 1) 0 0

/-- Embedding of `PDFProcessor._chunk_text`. -/
def chunkText (text : List Char) (W O : Nat) : List (List Char) :=
  (chunkTextPairs text W O).map Prod.snd

/-- Ceiling division on naturals, `ceil(a / b)` for positive `b`. -/
def ceilDivN (a b : Nat) : Nat :=
  (a + b - 1) / b

/-! ## PDFProcessor._extract_text_from_pdf

Source (app/pdf_processor.py, lines 53-176): four strategies are tried in
order (PyMuPDF, pdfplumber, PyPDF2, Tesseract OCR).  The `text` variable is
shared across strategies and only ever grows; every exception raised inside a
strategy's `try` block is caught by its `except Exception` handler, after
which the chain falls through to the next strategy.  Only the OCR-stage
`raise` (line 171) and the final insufficient-text `raise` (line 174) escape
to the caller.
-/

/-- Classification of extraction failures, following the specification
taxonomy.  The first three only ever occur as internal, caught exceptions in
the code; the last two are the errors the code actually surfaces. -/
inductive ExtractErr where
  | encryptedDocument
  | invalidCredential
  | libraryError
  | ocrFailed
  | insufficientText
deriving DecidableEq

/-- Abstract model of a PDF document as observed through the four extraction
libraries: whether it is password-protected, its correct password, whether
each library can open it, and the per-page result of each library's text
call (`Except.error` models a page call that raises). -/
structure PDFDoc where
  needsPass : Bool
  pw : String
  fitzOpenOk : Bool
  fitzPages : List (Except Unit String)
  plumberOpenOk : Bool
  plumberPages : List (Except Unit String)
  pypdfOpenOk : Bool
  pypdfPages : List (Except Unit String)
  ocrConvertOk : Bool
  ocrPages : List (Except Unit String)

/-- Appending of one page's text: `if page_text: text += page_text + "\n"`. -/
def appendPage (t : List Char) (p : String) : List Char :=
  if p = ("") then t else t ++ p.toList ++ ['\n']

/-- Page loop common to all four strategies.  Each non-empty page text is
appended followed by a newline; the accumulated text is truncated at the
1,000,000-character ceiling (breaking the loop); a raising page call aborts
the loop, keeping the text accumulated so far, and reports that an exception
was raised. -/
def accumPages : List (Except Unit String) → List Char → List Char × Bool
  | [], t => (t, false)
  | Except.error _ :: _, t => (t, true)
  | Except.ok p :: rest, t =>
    if 1000000 < (appendPage t p).length then ((appendPage t p).take 1000000, false)
    else accumPages rest (appendPage t p)

/-- PyMuPDF strategy (lines 56-87).  A missing or falsy (empty) password on
an encrypted document triggers the explicit `raise ValueError` (the
`EncryptedDocument` classification); `doc.authenticate`'s return value is
ignored, so a wrong password leaves the document locked and the first page
access raises a library error.  The branch returns the accumulated text and
the classification of the exception it raised, if any — the caller's
`except` catches it. -/
def fitzBranch (d : PDFDoc) (pw : Option String) (t0 : List Char) :
    List Char × Option ExtractErr :=
  if d.fitzOpenOk = false then (t0, some .libraryError)
  else if d.needsPass then
    match pw with
    | none => (t0, some .encryptedDocument)
    | some p =>
      if p = "" then (t0, some .encryptedDocument)
      else if p = d.pw then
        ((accumPages d.fitzPages t0).1,
          if (accumPages d.fitzPages t0).2 then some .libraryError else none)
      else if d.fitzPages.isEmpty then (t0, none)
      else (t0, some .libraryError)
  else
    ((accumPages d.fitzPages t0).1,
      if (accumPages d.fitzPages t0).2 then some .libraryError else none)

/-- The pdfplumber strategy (lines 90-111) passes no password, so opening an
encrypted document raises inside the library. -/
def plumberBranch (d : PDFDoc) (t0 : List Char) : List Char × Option ExtractErr :=
  if d.plumberOpenOk = false ∨ d.needsPass = true then (t0, some .libraryError)
  else
    ((accumPages d.plumberPages t0).1,
      if (accumPages d.plumberPages t0).2 then some .libraryError else none)

/-- PyPDF2 strategy (lines 114-144): `decrypt(password or "")` fails on an
encrypted document whose password differs from the supplied one (or from ""
when none is supplied), raising the invalid-credential `ValueError` — which
the branch-level `except` again catches. -/
def pypdfBranch (d : PDFDoc) (pw : Option String) (t0 : List Char) :
    List Char × Option ExtractErr :=
  if d.pypdfOpenOk = false then (t0, some .libraryError)
  else if d.needsPass = true ∧ pw.getD ("") ≠ d.pw then (t0, some .invalidCredential)
  else
    ((accumPages d.pypdfPages t0).1,
      if (accumPages d.pypdfPages t0).2 then some .libraryError else none)

/-- Final check (lines 173-176): fewer than 100 stripped characters raises
the generic insufficient-text error, otherwise the text is returned. -/
def finalCheck (t : List Char) : Except ExtractErr (List Char) :=
  if (pstrip t).length < 100 then .error .insufficientText else .ok t

/-- OCR stage (lines 146-176): attempted only when the accumulated text is
below the 100-character floor; a failing page rasterization or a raising OCR
page call surfaces the generic OCR failure (line 171), otherwise the final
check decides. -/
def ocrStage (d : PDFDoc) (t3 : List Char) : Except ExtractErr (List Char) :=
  if (pstrip t3).length < 100 then
    if d.ocrConvertOk then
      if (accumPages d.ocrPages t3).2 then .error .ocrFailed
      else finalCheck (accumPages d.ocrPages t3).1
    else .error .ocrFailed
  else finalCheck t3

/-- Text and raised-exception state after the PyMuPDF strategy. -/
def stage1 (d : PDFDoc) (pw : Option String) : List Char × Option ExtractErr :=
  fitzBranch d pw []

/-- State after the pdfplumber strategy (it continues from the text the
PyMuPDF strategy accumulated, raised or not). -/
def stage2 (d : PDFDoc) (pw : Option String) : List Char × Option ExtractErr :=
  plumberBranch d (stage1 d pw).1

/-- State after the PyPDF2 strategy. -/
def stage3 (d : PDFDoc) (pw : Option String) : List Char × Option ExtractErr :=
  pypdfBranch d pw (stage2 d pw).1

/-- Embedding of `PDFProcessor._extract_text_from_pdf`.  After each of the
three text-layer strategies, the text is returned early only if that branch
raised no exception and the stripped accumulated text exceeds 100
characters; otherwise the chain continues, ending in the OCR stage and the
final check. -/
def extractTextFromPDF (d : PDFDoc) (pw : Option String) :
    Except ExtractErr (List Char) :=
  if (stage1 d pw).2 = none ∧ 100 < (pstrip (stage1 d pw).1).length then
    .ok (stage1 d pw).1
  else if (stage2 d pw).2 = none ∧ 100 < (pstrip (stage2 d pw).1).length then
    .ok (stage2 d pw).1
  else if (stage3 d pw).2 = none ∧ 100 < (pstrip (stage3 d pw).1).length then
    .ok (stage3 d pw).1
  else ocrStage d (stage3 d pw).1

/-- Claim-side condition of C8: every strategy in the chain, the OCR fallback
included, accumulates text whose stripped length stays below the
100-character confidence floor. -/
def allStrategiesBelowFloor (d : PDFDoc) (pw : Option String) : Bool :=
  decide ((pstrip (stage1 d pw).1).length < 100) &&
  decide ((pstrip (stage2 d pw).1).length < 100) &&
  decide ((pstrip (stage3 d pw).1).length < 100) &&
  decide ((pstrip (if d.ocrConvertOk then (accumPages d.ocrPages (stage3 d pw).1).1
                   else (stage3 d pw).1)).length < 100)

/-- Specification-side definition for the refinement claim C5: the text the
secondary strategy (pdfplumber) alone would produce on the same input,
starting from an empty accumulator. -/
def plumberAloneSpec (d : PDFDoc) : Except Unit (List Char) :=
  if d.plumberOpenOk = false ∨ d.needsPass = true then .error ()
  else if (accumPages d.plumberPages []).2 then .error ()
  else .ok (accumPages d.plumberPages []).1

/-- Concrete encrypted document for C3: password "secret", all libraries can
open it, pages present, page rasterization for OCR fails. -/
def dEnc : PDFDoc where
  needsPass := true
  pw := "secret"
  fitzOpenOk := true
  fitzPages := [Except.ok ("some page text")]
  plumberOpenOk := true
  plumberPages := [Except.ok ("some page text")]
  pypdfOpenOk := true
  pypdfPages := [Except.ok ("some page text")]
  ocrConvertOk := false
  ocrPages := []

/-- Concrete document for C5: the primary extractor raises at open, the
secondary yields 50 characters (below the confidence floor), the tertiary
yields 200 characters. -/
def dC5 : PDFDoc where
  needsPass := false
  pw := ""
  fitzOpenOk := false
  fitzPages := []
  plumberOpenOk := true
  plumberPages := [Except.ok (String.mk (List.replicate 50 'a'))]
  pypdfOpenOk := true
  pypdfPages := [Except.ok (String.mk (List.replicate 200 'b'))]
  ocrConvertOk := true
  ocrPages := []

/-- Concrete document for C8: the three text-layer strategies cannot open the
document, OCR rasterization succeeds, the first OCR page yields 150
characters, and the second OCR page call raises. -/
def dC8 : PDFDoc where
  needsPass := false
  pw := ""
  fitzOpenOk := false
  fitzPages := []
  plumberOpenOk := false
  plumberPages := []
  pypdfOpenOk := false
  pypdfPages := []
  ocrConvertOk := true
  ocrPages := [Except.ok (String.mk (List.replicate 150 'x')), Except.error ()]

/-- Concrete document for the C5 and C8 witnesses: nothing can be opened and
OCR yields nothing. -/
def dEmpty : PDFDoc where
  needsPass := false
  pw := ""
  fitzOpenOk := false
  fitzPages := []
  plumberOpenOk := false
  plumberPages := []
  pypdfOpenOk := false
  pypdfPages := []
  ocrConvertOk := true
  ocrPages := []

/-- Concrete document for the amended C5 witness: the primary raises at open
and the secondary alone yields 150 characters. -/
def dW5 : PDFDoc where
  needsPass := false
  pw := ""
  fitzOpenOk := false
  fitzPages := []
  plumberOpenOk := true
  plumberPages := [Except.ok (String.mk (List.replicate 150 'x'))]
  pypdfOpenOk := true
  pypdfPages := []
  ocrConvertOk := true
  ocrPages := []

/-! ## VectorStoreFAISS (app/vector_store_faiss.py)

The embedding encoder (all-MiniLM-L6-v2) is modelled as an arbitrary
deterministic function `emb` into an arbitrary vector type `E`, and the
squared-L2 metric as an arbitrary distance `dist : E → E → Nat`; the claims
about the store do not depend on the metric's values, only on the index
bookkeeping around it.
-/

/-- Side-table record appended by `add_document` (lines 51-56):
`{'id': f"{doc_id}_{i}", 'content': chunk, 'doc_id': doc_id}`. -/
structure ChunkRec where
  id : String
  content : List Char
  docId : String
deriving DecidableEq

/-- In-memory state of `VectorStoreFAISS`: the faiss index (`self.index`, a
list of vectors in insertion order) and the side table (`self.documents`). -/
structure Store (E : Type) where
  vecs : List E
  docs : List ChunkRec
deriving DecidableEq

/-- Embedding of `VectorStoreFAISS.add_document` (lines 41-58): one vector
per chunk is appended to the index, and one record per chunk to the side
table, in the same order.  (The `if self.index.ntotal == 0` split in the
source performs the same `add` in both arms.) -/
def addDocument {E : Type} (emb : List Char → E) (s : Store E) (docId : String)
    (chunks : List (List Char)) : Store E where
  vecs := s.vecs ++ chunks.map emb
  docs := s.docs ++ chunks.enum.map
    (fun p => ⟨docId ++ "_" ++ toString p.1, p.2, docId⟩)

/-- Embedding of `_save_index` (lines 33-39): both artifacts are written
together. -/
def saveIndex {E : Type} (s : Store E) : Option (List E) × Option (List ChunkRec) :=
  (some s.vecs, some s.docs)

/-- Embedding of `_load_index` (lines 20-31): the on-disk pair is loaded only
when both files exist, otherwise a fresh empty index is created. -/
def loadIndex {E : Type} (disk : Option (List E) × Option (List ChunkRec)) : Store E :=
  match disk with
  | (some v, some r) => ⟨v, r⟩
  | _ => ⟨[], []⟩

/-- Stand-in for FLT_MAX, the distance with which faiss pads result slots
when `k` exceeds the number of stored vectors. -/
def fltMaxPad : Nat := 340282346638528859811704183484516925440

/-- Model of `faiss.IndexFlatL2.search` for a single query: (label, distance)
pairs of the `k` nearest stored vectors in increasing distance (ties broken
by insertion order), padded to length `k` with label `-1` and distance
FLT_MAX when fewer than `k` vectors are stored. -/
def faissSearch {E : Type} (dist : E → E → Nat) (vecs : List E) (q : E)
    (k : Nat) : List (Int × Nat) :=
  ((List.insertionSort
      (fun a b : Nat × Nat => a.2 < b.2 ∨ (a.2 = b.2 ∧ a.1 ≤ b.1))
      (vecs.enum.map (fun p => (p.1, dist q p.2)))).map
        (fun p => ((p.1 : Int), p.2))).take k
    ++ List.replicate (k - vecs.length) ((-1 : Int), fltMaxPad)

/-- Python list indexing semantics: a negative index counts from the end of
the list; an index out of range even after that adjustment raises IndexError,
modelled as `none`. -/
def pyGet {α : Type} (l : List α) (i : Int) : Option α :=
  if i < 0 then
    if 0 ≤ (l.length : Int) + i then l.get? ((l.length : Int) + i).toNat
    else none
  else l.get? i.toNat

/-- Result-collection loop of `VectorStoreFAISS.search` (lines 67-73): for
each faiss label, if `idx < len(self.documents)` holds the record at that
Python-indexed position is appended with its distance; an IndexError aborts
the whole call (`none`).  Labels at or beyond the side-table length are
skipped. -/
def collectResults (docs : List ChunkRec) :
    List (Int × Nat) → Option (List (List Char × Nat))
  | [] => some []
  | (idx, dv) :: rest =>
    if idx < (docs.length : Int) then
      match pyGet docs idx with
      | none => none
      | some r =>
        match collectResults docs rest with
        | none => none
        | some acc => some ((r.content, dv) :: acc)
    else collectResults docs rest

/-- Embedding of `VectorStoreFAISS.search` (lines 60-75). -/
def vsSearch {E : Type} (emb : List Char → E) (dist : E → E → Nat)
    (s : Store E) (query : List Char) (k : Nat) :
    Option (List (List Char × Nat)) :=
  collectResults s.docs (faissSearch dist s.vecs (emb query) k)

/-- Modelled from the spec: `VectorStore.get_document_chunks` lives in
app/vector_store.py (the module app/main.py imports), which is missing from
the source tree; §4.4 specifies `document_chunk_stats(document id)` as the
count of chunks currently indexed for that id, zero for an unknown id. -/
def documentChunkStats {E : Type} (s : Store E) (docId : String) : Nat :=
  (s.docs.filter (fun r => r.docId == docId)).length

/-- Modelled from the spec: `VectorStore.delete_document` also lives in the
missing app/vector_store.py; §4.4 specifies `delete(document id)` as
removing every chunk and vector owned by that id, rebuilding the vector
index from the retained side-table entries. -/
def deleteDocument {E : Type} (emb : List Char → E) (s : Store E)
    (docId : String) : Store E where
  vecs := (s.docs.filter (fun r => !(r.docId == docId))).map (fun r => emb r.content)
  docs := s.docs.filter (fun r => !(r.docId == docId))

/-- States of `VectorStoreFAISS` reachable from a fresh empty index by its
mutating operations — additions and save/load round trips.  `search` reads
the state without modifying it. -/
inductive Reachable {E : Type} (emb : List Char → E) : Store E → Prop where
  | empty : Reachable emb ⟨[], []⟩
  | add {s : Store E} (docId : String) (chunks : List (List Char)) :
      Reachable emb s → Reachable emb (addDocument emb s docId chunks)
  | reload {s : Store E} : Reachable emb s → Reachable emb (loadIndex (saveIndex s))

/-! ## Theorems -/

theorem mem_collapseWSGo_space {b : Bool} {s : List Char} {c : Char}
    (hm : c ∈ collapseWSGo b s) (hsp : pySpace c = true) : c = ' ' := by
  induction s generalizing b with
  | nil => simp [collapseWSGo] at hm
  | cons a t ih =>
    by_cases ha : pySpace a = true
    · cases b with
      | true =>
        simp only [collapseWSGo, ha, if_pos] at hm
        exact ih hm
      | false =>
        simp only [collapseWSGo, ha, if_pos] at hm
        rcases List.mem_cons.mp hm with h | h
        · exact h
        · exact ih h
    · simp only [collapseWSGo, ha, if_neg, Bool.false_eq_true, not_false_iff] at hm
      rcases List.mem_cons.mp hm with h | h
      · subst h; rw [hsp] at ha; exact absurd rfl ha
      · exact ih h

theorem mem_collapseNLGo {k : Nat} {s : List Char} {c : Char}
    (hm : c ∈ collapseNLGo k s) : c ∈ s := by
  induction s generalizing k with
  | nil => simp [collapseNLGo] at hm
  | cons a t ih =>
    by_cases ha : a = '\n'
    · by_cases hk : k < 2
      · simp only [collapseNLGo, ha, if_pos, hk] at hm
        rcases List.mem_cons.mp hm with h | h
        · subst h; exact ha ▸ List.mem_cons_self _ _
        · exact List.mem_cons_of_mem _ (ih h)
      · simp only [collapseNLGo, ha, if_pos, hk, if_neg] at hm
        exact List.mem_cons_of_mem _ (ih hm)
    · simp only [collapseNLGo, ha, if_neg, not_false_iff] at hm
      rcases List.mem_cons.mp hm with h | h
      · subst h; exact List.mem_cons_self _ _
      · exact List.mem_cons_of_mem _ (ih h)

theorem mem_pstrip {s : List Char} {c : Char} (hm : c ∈ pstrip s) : c ∈ s := by
  unfold pstrip List.rdropWhile at hm
  rw [List.mem_reverse] at hm
  have h1 : c ∈ (s.dropWhile pySpace).reverse :=
    (List.dropWhile_suffix pySpace).sublist.subset hm
  rw [List.mem_reverse] at h1
  exact (List.dropWhile_suffix pySpace).sublist.subset h1

theorem mem_removePageLine {s : List Char} {c : Char}
    (hm : c ∈ removePageLine s) : c ∈ s := by
  unfold removePageLine at hm
  split at hm
  · simp at hm
  · exact hm

/-- Every character of a cleaned text is in the allow list, and every
whitespace character of a cleaned text is a plain space. -/
theorem cleanText_char_shape (x : List Char) {c : Char} (hm : c ∈ cleanText x) :
    allowedChar c = true ∧ (pySpace c = true → c = ' ') := by
  unfold cleanText at hm
  have h1 := mem_removePageLine (mem_collapseNLGo (mem_pstrip hm))
  rw [List.mem_filter] at h1
  exact ⟨h1.2, fun hsp => mem_collapseWSGo_space h1.1 hsp⟩

theorem newline_not_mem_cleanText (x : List Char) : '\n' ∉ cleanText x := by
  intro hm
  have h := (cleanText_char_shape x hm).2 (by decide)
  exact absurd h (by decide)

theorem collapseNLGo_fix {s : List Char} (h : '\n' ∉ s) (k : Nat) :
    collapseNLGo k s = s := by
  induction s generalizing k with
  | nil => rfl
  | cons a t ih =>
    have ha : ¬ a = '\n' := fun hc => h (hc ▸ List.mem_cons_self _ _)
    simp only [collapseNLGo, ha, if_neg, not_false_iff]
    rw [ih (fun hc => h (List.mem_cons_of_mem _ hc))]

theorem noAdjSpaces_tail {a : Char} {t : List Char}
    (h : noAdjSpaces (a :: t) = true) : noAdjSpaces t = true := by
  cases t with
  | nil => rfl
  | cons b u =>
    simp only [noAdjSpaces, Bool.and_eq_true] at h
    exact h.2

theorem collapseWSGo_fix (s : List Char)
    (hshape : ∀ c ∈ s, pySpace c = true → c = ' ')
    (hadj : noAdjSpaces s = true) :
    collapseWSGo false s = s ∧
      ((∀ c, s.head? = some c → pySpace c = false) → collapseWSGo true s = s) := by
  induction s with
  | nil => exact ⟨rfl, fun _ => rfl⟩
  | cons a t ih =>
    have hshape' : ∀ c ∈ t, pySpace c = true → c = ' ' :=
      fun c hc => hshape c (List.mem_cons_of_mem _ hc)
    have ih' := ih hshape' (noAdjSpaces_tail hadj)
    by_cases ha : pySpace a = true
    · have haeq : a = ' ' := hshape a (List.mem_cons_self _ _) ha
      have hhead : ∀ c, t.head? = some c → pySpace c = false := by
        intro c hc
        cases t with
        | nil => simp at hc
        | cons b u =>
          simp only [List.head?_cons, Option.some.injEq] at hc
          subst hc
          simp only [noAdjSpaces, Bool.and_eq_true, Bool.not_eq_true',
            Bool.and_eq_false_iff] at hadj
          rcases hadj.1 with h | h
          · rw [ha] at h; exact absurd h (by decide)
          · exact h
      constructor
      · simp only [collapseWSGo, ha, if_pos]
        rw [ih'.2 hhead, haeq]
        simp
      · intro hh
        have := hh a (by rfl)
        rw [ha] at this
        exact absurd this (by decide)
    · have ha' : pySpace a = false := by
        cases h : pySpace a
        · rfl
        · exact absurd h ha
      constructor
      · simp only [collapseWSGo, ha', Bool.false_eq_true, if_neg, not_false_iff]
        rw [ih'.1]
      · intro _
        simp only [collapseWSGo, ha', Bool.false_eq_true, if_neg, not_false_iff]
        rw [ih'.1]

/-- Idempotence of Python `str.strip`. -/
theorem pstrip_idem (s : List Char) : pstrip (pstrip s) = pstrip s := by
  unfold pstrip
  set u := s.dropWhile pySpace with hu
  have hpre : ∃ t, u = List.rdropWhile pySpace u ++ t := by
    obtain ⟨w, hw⟩ := List.dropWhile_suffix (l := u.reverse) pySpace
    refine ⟨w.reverse, ?_⟩
    unfold List.rdropWhile
    calc u = u.reverse.reverse := (List.reverse_reverse u).symm
      _ = (w ++ u.reverse.dropWhile pySpace).reverse := by rw [hw]
      _ = (u.reverse.dropWhile pySpace).reverse ++ w.reverse := by
            rw [List.reverse_append]
  have h1 : (List.rdropWhile pySpace u).dropWhile pySpace = List.rdropWhile pySpace u := by
    obtain ⟨t, ht⟩ := hpre
    cases hv : List.rdropWhile pySpace u with
    | nil => simp
    | cons c w =>
      rw [hv] at ht
      have hu2 : List.dropWhile pySpace u = u := by
        rw [hu]
        exact List.dropWhile_idempotent pySpace s
      rw [ht] at hu2
      simp only [List.cons_append, List.dropWhile_cons] at hu2
      by_cases hc : pySpace c = true
      · rw [if_pos hc] at hu2
        have hlen := congrArg List.length hu2
        have hle : (List.dropWhile pySpace (w ++ t)).length ≤ (w ++ t).length :=
          (List.dropWhile_suffix pySpace).sublist.length_le
        simp only [List.length_cons] at hlen
        omega
      · have hc' : pySpace c = false := by
          cases h : pySpace c
          · rfl
          · exact absurd h hc
        simp [List.dropWhile_cons, hc']
  rw [h1, List.rdropWhile_idempotent]

/-- Counterexample to C4.  The normalizer is not idempotent: filtering the
disallowed character of the string makes two whitespace runs adjacent, so
the second application collapses them further. -/
theorem cleanText_not_idempotent :
    cleanText (cleanText ("a ~ b".toList)) ≠ cleanText ("a ~ b".toList) := by
  decide

/-- C4 (amended): the normalizer is idempotent on every input whose cleaned
form has no two adjacent whitespace characters (character filtering can merge
two whitespace runs) and is not a pure page-number line (a digit line exposed
by stripping is removed only by the second pass). -/
theorem cleanText_idem_of_wellFormed (x : List Char)
    (h1 : noAdjSpaces (cleanText x) = true)
    (h2 : isDigitLine (cleanText x) = false) :
    cleanText (cleanText x) = cleanText x := by
  set y := cleanText x with hy
  have hshape : ∀ c ∈ y, pySpace c = true → c = ' ' :=
    fun c hc => (cleanText_char_shape x hc).2
  have hallowed : ∀ c ∈ y, allowedChar c = true :=
    fun c hc => (cleanText_char_shape x hc).1
  have hnl : '\n' ∉ y := newline_not_mem_cleanText x
  have s1 : collapseWS y = y := (collapseWSGo_fix y hshape h1).1
  have s2 : y.filter allowedChar = y := List.filter_eq_self.mpr hallowed
  have s3 : removePageLine y = y := by
    unfold removePageLine
    rw [h2]
    simp
  have s4 : collapseNL y = y := collapseNLGo_fix hnl 0
  show cleanText y = y
  unfold cleanText
  rw [show collapseWS y = y from s1, s2, s3]
  rw [show collapseNL y = y from s4]
  rw [hy]
  show pstrip (cleanText x) = cleanText x
  unfold cleanText
  exact pstrip_idem _

/-- Witness for the amended C4 theorem at a concrete input. -/
theorem cleanText_idem_of_wellFormed_witness :
    cleanText (cleanText ("hello world".toList)) = cleanText ("hello world".toList) :=
  cleanText_idem_of_wellFormed ("hello world".toList) (by decide) (by decide)

theorem pstrip_length_le (s : List Char) : (pstrip s).length ≤ s.length := by
  unfold pstrip List.rdropWhile
  rw [List.length_reverse]
  have h1 : (List.dropWhile pySpace (s.dropWhile pySpace).reverse).length ≤
      (s.dropWhile pySpace).reverse.length :=
    (List.dropWhile_suffix pySpace).sublist.length_le
  have h2 : (s.dropWhile pySpace).length ≤ s.length :=
    (List.dropWhile_suffix pySpace).sublist.length_le
  rw [List.length_reverse] at h1
  omega

theorem pstrip_eq_self_of_no_space {s : List Char}
    (h : ∀ c ∈ s, pySpace c = false) : pstrip s = s := by
  unfold pstrip
  have h1 : s.dropWhile pySpace = s := by
    rw [List.dropWhile_eq_self_iff]
    intro hl
    rw [h _ (List.get_mem s 0 hl)]
    simp
  rw [h1, List.rdropWhile_eq_self_iff]
  intro hl
  rw [h _ (List.getLast_mem hl)]
  simp

/-- Shape of every emitted chunk: the stripped window of `W` characters taken
at a start offset that is a multiple of the stride. -/
theorem chunkAux_shape (text : List Char) (W O : Nat) :
    ∀ fuel start cnt, ∀ p ∈ chunkAux text W O fuel start cnt,
      (∃ k, p.1 = start + k * (W - O)) ∧
      p.2 = pstrip ((text.drop p.1).take W) ∧
      20 < p.2.length ∧ p.2.length ≤ W := by
  intro fuel
  induction fuel with
  | zero => intro start cnt p hp; simp [chunkAux] at hp
  | succ fuel ih =>
    intro start cnt p hp
    unfold chunkAux at hp
    split at hp
    · split at hp
      · rcases List.mem_cons.mp hp with h | h
        · subst h
          refine ⟨⟨0, by omega⟩, rfl, ?_, ?_⟩
          · assumption
          · calc (pstrip ((text.drop start).take W)).length
                ≤ ((text.drop start).take W).length := pstrip_length_le _
              _ ≤ W := by rw [List.length_take]; omega
        · obtain ⟨⟨k, hk⟩, h2, h3, h4⟩ := ih _ _ _ h
          exact ⟨⟨k + 1, by rw [hk]; ring⟩, h2, h3, h4⟩
      · obtain ⟨⟨k, hk⟩, h2, h3, h4⟩ := ih _ _ _ hp
        exact ⟨⟨k + 1, by rw [hk]; ring⟩, h2, h3, h4⟩
    · simp at hp

/-- Start offsets strictly increase along the emitted chunk list. -/
theorem chunkAux_starts_increasing (text : List Char) (W O : Nat) (hWO : O < W) :
    ∀ fuel start cnt,
      List.Chain' (fun a b : Nat × List Char => a.1 < b.1)
        (chunkAux text W O fuel start cnt) := by
  intro fuel
  induction fuel with
  | zero => intro start cnt; simp [chunkAux]
  | succ fuel ih =>
    intro start cnt
    unfold chunkAux
    split
    · split
      · rw [List.chain'_cons']
        refine ⟨?_, ih _ _⟩
        intro q hq
        obtain ⟨⟨k, hk⟩, _, _, _⟩ :=
          chunkAux_shape text W O fuel _ _ q (List.mem_of_mem_head? hq)
        have h5 : start + (W - O) ≤ q.1 := by
          rw [hk]
          exact Nat.le_add_right _ _
        omega
      · exact ih _ _
    · exact List.chain'_nil

/-- Counterexample to C6.  With the configured window 300 and overlap 50, a
text starting with a whitespace character yields a first (non-final) chunk of
length 299, not 300: chunks are stripped windows, so interior chunks need not
be exactly `chunk_size` characters long. -/
theorem chunkText_not_fixed_size :
    ¬ ∀ c ∈ (chunkText (' ' :: List.replicate 599 'a') 300 50).dropLast,
        c.length = 300 := by
  decide

/-- C6 (amended): every emitted chunk is the whitespace-stripped window of
`chunk_size` characters taken at its start offset (hence of length at most
`chunk_size`, and more than the minimum length 20, but not exactly
`chunk_size` in general), start offsets are multiples of the stride
`chunk_size - overlap`, and they strictly increase along the sequence;
windows whose stripped text is at most 20 characters are dropped, so
consecutive emitted offsets may differ by more than one stride. -/
theorem chunkTextPairs_shape (text : List Char) (W O : Nat) (hWO : O < W) :
    (∀ p ∈ chunkTextPairs text W O,
        p.2 = pstrip ((text.drop p.1).take W) ∧
        20 < p.2.length ∧ p.2.length ≤ W ∧ (W - O) ∣ p.1) ∧
    List.Chain' (fun a b : Nat × List Char => a.1 < b.1)
      (chunkTextPairs text W O) := by
  constructor
  · intro p hp
    obtain ⟨⟨k, hk⟩, h2, h3, h4⟩ := chunkAux_shape text W O _ _ _ p hp
    refine ⟨h2, h3, h4, ⟨k, ?_⟩⟩
    rw [hk]
    ring
  · exact chunkAux_starts_increasing text W O hWO _ _ _

theorem ceilDivN_zero {b : Nat} (hb : 0 < b) : ceilDivN 0 b = 0 := by
  unfold ceilDivN
  rw [Nat.zero_add]
  exact Nat.div_eq_of_lt (by omega)

theorem ceilDivN_step {a b : Nat} (ha : 0 < a) (hb : 0 < b) :
    ceilDivN a b = 1 + ceilDivN (a - b) b := by
  unfold ceilDivN
  rcases le_or_lt a b with h | h
  · have h1 : a + b - 1 = (a - 1) + b := by omega
    have h2 : a - b = 0 := by omega
    rw [h1, Nat.add_div_right _ hb, h2, Nat.zero_add]
    rw [Nat.div_eq_of_lt (by omega), Nat.div_eq_of_lt (by omega)]
  · have h1 : a + b - 1 = ((a - b - 1) + b) + b := by omega
    have h2 : a - b + b - 1 = (a - b - 1) + b := by omega
    rw [h1, h2, Nat.add_div_right _ hb, Nat.add_div_right _ hb]
    omega

/-- Number of chunks emitted by the loop from a given `start` and count, for
whitespace-free text. -/
theorem chunkAux_count (text : List Char) (W O : Nat) (hWO : O < W) (hW : 20 < W)
    (hsp : ∀ c ∈ text, pySpace c = false) :
    ∀ fuel start cnt, text.length ≤ start + fuel → cnt ≤ 100 →
      (chunkAux text W O fuel start cnt).length =
        min (ceilDivN (text.length - start - 20) (W - O)) (100 - cnt) := by
  intro fuel
  induction fuel with
  | zero =>
    intro start cnt hfuel _
    have h0 : text.length - start - 20 = 0 := by omega
    simp [chunkAux, h0, ceilDivN_zero (b := W - O) (by omega)]
  | succ fuel ih =>
    intro start cnt hfuel hcnt
    unfold chunkAux
    have hwin : (pstrip ((text.drop start).take W)).length =
        min W (text.length - start) := by
      rw [pstrip_eq_self_of_no_space, List.length_take, List.length_drop]
      intro c hc
      exact hsp c (List.mem_of_mem_drop (List.mem_of_mem_take hc))
    by_cases hguard : start < text.length ∧ cnt < 100
    · rw [if_pos hguard]
      by_cases hbig : 20 < text.length - start
      · have hlen : 20 < (pstrip ((text.drop start).take W)).length := by
          rw [hwin]; omega
        rw [if_pos hlen, List.length_cons]
        rw [ih (start + (W - O)) (cnt + 1) (by omega) (by omega)]
        have hx : 0 < text.length - start - 20 := by omega
        have hstep := ceilDivN_step (a := text.length - start - 20)
          (b := W - O) hx (by omega)
        have harg : text.length - (start + (W - O)) - 20 =
            text.length - start - 20 - (W - O) := by omega
        rw [harg, ]
        omega
      · have hlen : ¬ 20 < (pstrip ((text.drop start).take W)).length := by
          rw [hwin]; omega
        rw [if_neg hlen]
        rw [ih (start + (W - O)) cnt (by omega) hcnt]
        have h1 : text.length - start - 20 = 0 := by omega
        have h2 : text.length - (start + (W - O)) - 20 = 0 := by omega
        rw [h1, h2]
    · rw [if_neg hguard]
      rcases Decidable.not_and_iff_or_not.mp hguard with h | h
      · have h0 : text.length - start - 20 = 0 := by omega
        simp [h0, ceilDivN_zero (b := W - O) (by omega)]
      · have h0 : 100 - cnt = 0 := by omega
        simp [h0]

/-- Counterexample to C7.  For the 280-character whitespace-free text with
window 300 and overlap 50 (stride 250), the loop emits two chunks (the second
window, of raw length 30, survives the minimum-length filter), while the
claimed formula `ceil((L - O) / S)` gives 1. -/
theorem chunkText_count_counterexample :
    (chunkText (List.replicate 280 'a') 300 50).length = 2 ∧
    min (ceilDivN (280 - 50) (300 - 50)) 100 = 1 := by
  constructor
  · decide
  · decide

/-- C7 (amended): for whitespace-free text of length `L`, window `W > 20` and
stride `S = W - O`, the number of chunks is `min(ceil((L - 20) / S), 100)`:
the subtracted constant is the minimum chunk length 20, not the overlap, and
the cap inside `_chunk_text` is 100 (`process_pdf` later truncates the list
further to 50). -/
theorem chunkText_count (text : List Char) (W O : Nat) (hWO : O < W)
    (hW : 20 < W) (hsp : ∀ c ∈ text, pySpace c = false) :
    (chunkText text W O).length =
      min (ceilDivN (text.length - 20) (W - O)) 100 := by
  unfold chunkText chunkTextPairs
  rw [List.length_map]
  rw [chunkAux_count text W O hWO hW hsp (text.length + 1) 0 0 (by omega) (by omega)]
  norm_num

/-- Witness for the amended C7 theorem at a concrete input. -/
theorem chunkText_count_witness :
    (chunkText (List.replicate 280 'a') 300 50).length =
      min (ceilDivN ((List.replicate 280 'a').length - 20) (300 - 50)) 100 :=
  chunkText_count (List.replicate 280 'a') 300 50 (by decide) (by decide)
    (by decide)

/-- Witness for the amended C6 theorem at the configured parameters. -/
theorem chunkTextPairs_shape_witness :
    (∀ p ∈ chunkTextPairs (' ' :: List.replicate 599 'a') 300 50,
        p.2 = pstrip (((' ' :: List.replicate 599 'a').drop p.1).take 300) ∧
        20 < p.2.length ∧ p.2.length ≤ 300 ∧ (300 - 50) ∣ p.1) ∧
    List.Chain' (fun a b : Nat × List Char => a.1 < b.1)
      (chunkTextPairs (' ' :: List.replicate 599 'a') 300 50) :=
  chunkTextPairs_shape (' ' :: List.replicate 599 'a') 300 50 (by decide)

/-- Helper: the only errors `_extract_text_from_pdf` surfaces are the two
generic chain-exhausted ones, and an error implies the text accumulated by
the three text-layer strategies was below the confidence floor. -/
theorem extract_error_generic (d : PDFDoc) (pw : Option String) (e : ExtractErr)
    (h : extractTextFromPDF d pw = .error e) :
    (e = .ocrFailed ∨ e = .insufficientText) ∧
      (pstrip (stage3 d pw).1).length < 100 := by
  unfold extractTextFromPDF at h
  split at h
  · exact absurd h (by simp)
  split at h
  · exact absurd h (by simp)
  split at h
  · exact absurd h (by simp)
  unfold ocrStage at h
  split at h
  case isTrue hlow =>
    refine ⟨?_, hlow⟩
    split at h
    · split at h
      · injection h with h2
        exact Or.inl h2.symm
      · unfold finalCheck at h
        split at h
        · injection h with h2
          exact Or.inr h2.symm
        · exact absurd h (by simp)
    · injection h with h2
      exact Or.inl h2.symm
  case isFalse hge =>
    unfold finalCheck at h
    split at h
    · omega
    · exact absurd h (by simp)

/-- Counterexample to C3.  For the encrypted document `dEnc`, extraction with
no credential and extraction with a wrong credential both surface the generic
OCR failure, not the `EncryptedDocument` / `InvalidCredential`
classifications: the classified raises inside the strategy branches are
caught by the branch-level exception handlers. -/
theorem extract_encrypted_counterexample :
    extractTextFromPDF dEnc none = .error .ocrFailed ∧
    extractTextFromPDF dEnc (some ("wrong")) = .error .ocrFailed ∧
    ExtractErr.ocrFailed ≠ ExtractErr.encryptedDocument ∧
    ExtractErr.ocrFailed ≠ ExtractErr.invalidCredential := by
  refine ⟨by decide, by decide, by decide, by decide⟩

/-- C3 (amended): the primary strategy does classify a missing credential on
an encrypted document as `EncryptedDocument` (and the tertiary classifies a
failing credential as `InvalidCredential`), but these classified errors are
raised inside the per-strategy `try` blocks and caught; the failure surfaced
to the caller is always one of the two generic chain-exhausted errors, never
the encrypted/invalid-credential classification. -/
theorem encrypted_errors_not_surfaced :
    (∀ d : PDFDoc, d.needsPass = true → d.fitzOpenOk = true →
        (fitzBranch d none []).2 = some .encryptedDocument) ∧
    (∀ (d : PDFDoc) (pw : Option String) (e : ExtractErr),
        extractTextFromPDF d pw = .error e →
          e = .ocrFailed ∨ e = .insufficientText) := by
  constructor
  · intro d hpass hopen
    unfold fitzBranch
    rw [hopen, hpass]
    simp
  · intro d pw e h
    exact (extract_error_generic d pw e h).1

/-- Witness for the amended C3 theorem at the concrete encrypted document. -/
theorem encrypted_errors_not_surfaced_witness :
    (fitzBranch dEnc none []).2 = some ExtractErr.encryptedDocument ∧
    (ExtractErr.ocrFailed = ExtractErr.ocrFailed ∨
      ExtractErr.ocrFailed = ExtractErr.insufficientText) :=
  ⟨encrypted_errors_not_surfaced.1 dEnc (by decide) (by decide),
   encrypted_errors_not_surfaced.2 dEnc none ExtractErr.ocrFailed (by decide)⟩

/-- Counterexample to C5.  On `dC5` the primary extractor raises, yet the
chain's output is not what the secondary alone would produce: the secondary
under-yields (50 characters), so the chain falls through to the tertiary and
returns the concatenation of the secondary's and tertiary's text. -/
theorem extract_fallback_counterexample :
    (fitzBranch dC5 none []).2.isSome = true ∧
    (extractTextFromPDF dC5 none).toOption ≠ (plumberAloneSpec dC5).toOption := by
  refine ⟨by decide, by decide⟩

/-- C5 (amended): if the primary strategy raises without accumulating any
text, and the secondary strategy alone yields text whose stripped length
exceeds the 100-character floor, then the chain's output equals the
secondary's output.  (In general the claim fails: a raising primary keeps any
partially accumulated text, and an under-yielding secondary falls through to
the remaining strategies, which extend its text.) -/
theorem extract_fallback_secondary (d : PDFDoc) (pw : Option String)
    (t : List Char)
    (h1 : (fitzBranch d pw []).2.isSome = true)
    (h2 : (fitzBranch d pw []).1 = [])
    (h3 : plumberAloneSpec d = .ok t)
    (h4 : 100 < (pstrip t).length) :
    extractTextFromPDF d pw = .ok t := by
  unfold plumberAloneSpec at h3
  split at h3
  · exact absurd h3 (by simp)
  case isFalse hopen =>
    split at h3
    · exact absurd h3 (by simp)
    case isFalse hraised =>
      rw [Except.ok.injEq] at h3
      have hs2 : stage2 d pw = (t, none) := by
        unfold stage2 stage1 plumberBranch
        rw [h2, if_neg hopen]
        rw [Bool.not_eq_true] at hraised
        rw [hraised, h3]
        simp
      unfold extractTextFromPDF
      have hns : ¬ ((stage1 d pw).2 = none ∧
          100 < (pstrip (stage1 d pw).1).length) := by
        intro hc
        unfold stage1 at hc
        rw [hc.1] at h1
        simp at h1
      rw [if_neg hns, hs2]
      simp [h4]

/-- Witness for the amended C5 theorem at a concrete document. -/
theorem extract_fallback_secondary_witness :
    extractTextFromPDF dW5 none =
      .ok ((String.mk (List.replicate 150 'x')).toList ++ ['\n']) :=
  extract_fallback_secondary dW5 none
    ((String.mk (List.replicate 150 'x')).toList ++ ['\n'])
    (by decide) (by decide) (by decide) (by decide)

/-- Counterexample to C8.  On `dC8` extraction fails with the generic
chain-exhausted (ExtractionFailed) error even though the OCR strategy
accumulated 151 characters — well above the confidence floor — before its
second page call raised: failure does not imply that every strategy yielded
below the floor. -/
theorem extraction_failed_counterexample :
    extractTextFromPDF dC8 none = .error .ocrFailed ∧
    allStrategiesBelowFloor dC8 none = false := by
  refine ⟨by decide, by decide⟩

/-- C8 (amended): whenever extraction returns text, the text meets the
100-character confidence floor; extraction fails only with the generic
chain-exhausted errors and only when the text accumulated by the three
text-layer strategies is below the floor; and if every strategy, OCR
included, accumulates text below the floor then extraction does fail. -/
theorem extraction_failed_characterization (d : PDFDoc) (pw : Option String) :
    (∀ t, extractTextFromPDF d pw = .ok t → 100 ≤ (pstrip t).length) ∧
    (∀ e, extractTextFromPDF d pw = .error e →
        (e = .ocrFailed ∨ e = .insufficientText) ∧
          (pstrip (stage3 d pw).1).length < 100) ∧
    (allStrategiesBelowFloor d pw = true →
        ∃ e, extractTextFromPDF d pw = .error e) := by
  refine ⟨?_, fun e h => extract_error_generic d pw e h, ?_⟩
  · intro t h
    unfold extractTextFromPDF at h
    split at h
    case isTrue hc => rw [Except.ok.injEq] at h; subst h; omega
    split at h
    case isTrue hc => rw [Except.ok.injEq] at h; subst h; omega
    split at h
    case isTrue hc => rw [Except.ok.injEq] at h; subst h; omega
    unfold ocrStage at h
    split at h
    case isTrue hlow =>
      split at h
      · split at h
        · exact absurd h (by simp)
        · unfold finalCheck at h
          split at h
          · exact absurd h (by simp)
          case isFalse hge =>
            rw [Except.ok.injEq] at h
            subst h
            omega
      · exact absurd h (by simp)
    case isFalse hge =>
      unfold finalCheck at h
      split at h
      · omega
      · rw [Except.ok.injEq] at h
        subst h
        omega
  · intro hall
    unfold allStrategiesBelowFloor at hall
    simp only [Bool.and_eq_true, decide_eq_true_eq] at hall
    obtain ⟨⟨⟨hb1, hb2⟩, hb3⟩, hb4⟩ := hall
    unfold extractTextFromPDF
    rw [if_neg (by intro hc; omega), if_neg (by intro hc; omega),
      if_neg (by intro hc; omega)]
    unfold ocrStage
    rw [if_pos hb3]
    by_cases hconv : d.ocrConvertOk
    · rw [if_pos hconv]
      rw [hconv] at hb4
      simp only [if_pos] at hb4
      by_cases hraised : (accumPages d.ocrPages (stage3 d pw).1).2
      · rw [if_pos hraised]
        exact ⟨.ocrFailed, rfl⟩
      · rw [if_neg hraised]
        unfold finalCheck
        rw [if_pos hb4]
        exact ⟨.insufficientText, rfl⟩
    · rw [if_neg hconv]
      exact ⟨.ocrFailed, rfl⟩

/-- Witness for the amended C8 theorem at a concrete document on which every
strategy under-yields. -/
theorem extraction_failed_characterization_witness :
    ∃ e, extractTextFromPDF dEmpty none = .error e :=
  (extraction_failed_characterization dEmpty none).2.2 (by decide)

/-- Invariant of every reachable store: the vector list is exactly the
embedding image of the side-table contents. -/
theorem reachable_vecs_eq {E : Type} (emb : List Char → E) (s : Store E)
    (h : Reachable emb s) :
    s.vecs = s.docs.map (fun r => emb r.content) := by
  induction h with
  | empty => rfl
  | add docId chunks _ ih =>
    show _ ++ _ = List.map _ (_ ++ _)
    rw [List.map_append, ← ih, List.map_map]
    have h2 : (List.map ((fun r : ChunkRec => emb r.content) ∘
        (fun p : Nat × List Char => ⟨docId ++ "_" ++ toString p.1, p.2, docId⟩))
        chunks.enum) = List.map (emb ∘ Prod.snd) chunks.enum := rfl
    rw [h2, ← List.map_map, List.enum_map_snd]
  | reload _ ih => exact ih

/-- C9: in every reachable index state the number of stored vectors equals
the number of side-table records, and the vector at each ordinal position is
the embedding of the chunk content of the record at the same position; the
mutating operations (add, save, load) preserve the pairing, and search does
not modify the state. -/
theorem vector_side_table_pairing {E : Type} (emb : List Char → E)
    (s : Store E) (h : Reachable emb s) :
    s.vecs.length = s.docs.length ∧
    ∀ (i : Nat) (h1 : i < s.vecs.length) (h2 : i < s.docs.length),
      s.vecs.get ⟨i, h1⟩ = emb ((s.docs.get ⟨i, h2⟩).content) := by
  have hv := reachable_vecs_eq emb s h
  constructor
  · rw [hv, List.length_map]
  · intro i h1 h2
    simp only [List.get_eq_getElem, hv, List.getElem_map]

/-- Witness for C9 at a concrete reachable state. -/
theorem vector_side_table_pairing_witness :
    (addDocument (fun c : List Char => c.length) ⟨[], []⟩ ("doc1")
        [("hello".toList)]).vecs.length =
      (addDocument (fun c : List Char => c.length) ⟨[], []⟩ ("doc1")
        [("hello".toList)]).docs.length :=
  (vector_side_table_pairing (fun c : List Char => c.length) _
    (Reachable.add ("doc1") [("hello".toList)] Reachable.empty)).1

/-- C2: adding a document with a fresh id makes `document_chunk_stats` report
exactly the number of chunks added, and deleting the document afterwards
makes it report zero.  (`delete` and `document_chunk_stats` are modelled from
the spec, their implementation being in the missing app/vector_store.py;
`add` is the embedding of `VectorStoreFAISS.add_document`.) -/
theorem add_delete_roundtrip {E : Type} (emb : List Char → E) (s : Store E)
    (docId : String) (chunks : List (List Char))
    (_hne : chunks ≠ [])
    (hfresh : documentChunkStats s docId = 0) :
    documentChunkStats (addDocument emb s docId chunks) docId = chunks.length ∧
    documentChunkStats
      (deleteDocument emb (addDocument emb s docId chunks) docId) docId = 0 := by
  constructor
  · unfold documentChunkStats at hfresh ⊢
    unfold addDocument
    rw [List.filter_append, List.length_append]
    rw [List.length_eq_zero.mpr (List.length_eq_zero.mp hfresh)]
    rw [List.filter_eq_self.mpr ?_]
    · rw [Nat.zero_add, List.length_map, List.enum_length]
    · intro r hr
      rw [List.mem_map] at hr
      obtain ⟨p, _, hp⟩ := hr
      rw [← hp]
      exact beq_self_eq_true docId
  · unfold documentChunkStats deleteDocument
    rw [List.filter_filter]
    have hfalse : ∀ r : ChunkRec,
        ((r.docId == docId) && !(r.docId == docId)) = false := by
      intro r
      cases r.docId == docId <;> rfl
    simp only [hfalse, List.filter_false, List.length_nil]

/-- Witness for C2 at a concrete store. -/
theorem add_delete_roundtrip_witness :
    documentChunkStats
      (addDocument (fun c : List Char => c.length) (⟨[], []⟩ : Store Nat)
        ("d") [("ab".toList), ("cd".toList)]) ("d") =
      [("ab".toList), ("cd".toList)].length ∧
    documentChunkStats
      (deleteDocument (fun c : List Char => c.length)
        (addDocument (fun c : List Char => c.length) (⟨[], []⟩ : Store Nat)
          ("d") [("ab".toList), ("cd".toList)]) ("d")) ("d") = 0 :=
  add_delete_roundtrip (fun c : List Char => c.length) ⟨[], []⟩ ("d")
    [("ab".toList), ("cd".toList)] (by decide) (by decide)

/-- C1 (code bug): on the freshly initialized empty store, `search` raises
IndexError instead of returning the "nothing indexed" sentinel: faiss pads
every result slot with label -1, the guard `idx < len(self.documents)` holds
for -1, and `self.documents[-1]` on the empty side table raises. -/
theorem search_empty_store_raises {E : Type} (emb : List Char → E)
    (dist : E → E → Nat) (q : List Char) (k : Nat) (hk : 0 < k) :
    vsSearch emb dist (⟨[], []⟩ : Store E) q k = none := by
  obtain ⟨j, rfl⟩ : ∃ j, k = j + 1 := ⟨k - 1, by omega⟩
  unfold vsSearch
  have h1 : faissSearch dist ([] : List E) (emb q) (j + 1) =
      ((-1 : Int), fltMaxPad) :: List.replicate j ((-1 : Int), fltMaxPad) := by
    unfold faissSearch
    simp [List.replicate_succ]
  rw [h1]
  unfold collectResults
  rw [if_pos (by simp)]
  have h2 : pyGet ([] : List ChunkRec) (-1 : Int) = none := by decide
  rw [h2]

/-- Witness for the C1 theorem: a concrete search on the empty store. -/
theorem search_empty_store_raises_witness :
    vsSearch (fun c : List Char => c.length)
      (fun a b => (a - b) + (b - a)) (⟨[], []⟩ : Store Nat)
      ("what does the course cover".toList) 5 = none :=
  search_empty_store_raises (fun c : List Char => c.length)
    (fun a b => (a - b) + (b - a)) ("what does the course cover".toList) 5
    (by decide)

/-- C10 (code bug): with a single stored vector and `top_k = 2`, `search`
returns two results, the second fabricated from the -1 padding label through
Python negative indexing — a duplicate of the last side-table record with the
FLT_MAX padding distance — instead of one result per stored vector. -/
theorem search_topk_fabricates_result :
    vsSearch (fun c : List Char => c.length)
      (fun a b => (a - b) + (b - a))
      (addDocument (fun c : List Char => c.length) (⟨[], []⟩ : Store Nat)
        ("doc1") [("this chunk has more than twenty characters".toList)])
      ("query".toList) 2 =
    some [(("this chunk has more than twenty characters".toList), 37),
          (("this chunk has more than twenty characters".toList), fltMaxPad)] := by
  decide

end TutorRAG
